import Mathlib

/-!
Verification of the part-lifecycle and background-scheduler core of a
single-node merge-tree storage engine (`StorageMergeTree.cpp`).

The development shallowly embeds the relevant operations: the committing-block
set and its wait predicate, the block-number allocator, the mutation registry
(selection, failure recording, kill, cleanup), the memory-pressure checks of
merge selection, level scanning between parts, and MOVE PARTITION TO TABLE.
Machine integers are modelled by `Int`/`Nat`; fallible code returns `Except`.
-/

namespace MergeTree

/-- Operation kind stamped on a committing block (`CommittingBlock::Op`). -/
inductive CommittingOp where
  | NewPart
  | Mutation
  | Update
deriving DecidableEq, Repr

/-- A committing block: a block number allocated but not yet installed.
Modelled from the spec: committing blocks are pairs `(op, number)` stored in a
sorted set ordered by block number (`CommittingBlocksSet`, declared outside
this translation unit). -/
structure CommittingBlock where
  op : CommittingOp
  number : Int
deriving DecidableEq, Repr

/-- Error kinds thrown by the modelled operations. -/
inductive MTError where
  | TIMEOUT_EXCEEDED
  | LOGICAL_ERROR
  | UNKNOWN_POLICY
  | TOO_MANY_PARTS
deriving DecidableEq, Repr

/-- The wait predicate `all_committed` of
`StorageMergeTree::waitForCommittingInsertsAndMutations`: iterate the sorted
committing set; stop at the first block whose number is `≥ max_block_number`;
report `false` on a block whose op differs from `Update`. -/
def allCommitted (blocks : List CommittingBlock) (maxBlockNumber : Int) : Bool :=
  match blocks with
  | [] => true
  | b :: rest =>
    if maxBlockNumber ≤ b.number then true
    else if b.op ≠ CommittingOp.Update then false
    else allCommitted rest maxBlockNumber

/-- `StorageMergeTree::waitForCommittingInsertsAndMutations`.  The condition
variable wait is modelled by the sequence of committing-set states observed at
successive wake-ups within `timeout_ms`: the wait returns normally as soon as
one observed state satisfies `all_committed`, and throws `TIMEOUT_EXCEEDED`
when no state within the timeout does. -/
def waitForCommittingInsertsAndMutations
    (observedStates : List (List CommittingBlock))
    (maxBlockNumber : Int) : Except MTError Unit :=
  if observedStates.any (fun s => allCommitted s maxBlockNumber) then
    Except.ok ()
  else
    Except.error MTError.TIMEOUT_EXCEEDED

/-- On a committing set sorted by block number, the early-break loop
`all_committed` decides exactly: every committing block below the bound has
op `Update`. -/
theorem allCommitted_eq_true_iff (s : List CommittingBlock) (maxB : Int)
    (hs : s.Pairwise (fun a b => a.number ≤ b.number)) :
    allCommitted s maxB = true ↔
      ∀ b ∈ s, b.number < maxB → b.op = CommittingOp.Update := by
  induction s with
  | nil => simp [allCommitted]
  | cons b rest ih =>
    rw [List.pairwise_cons] at hs
    rw [allCommitted]
    by_cases hble : maxB ≤ b.number
    · rw [if_pos hble]
      constructor
      · intro _ x hx hlt
        rcases List.mem_cons.mp hx with hx | hx
        · subst hx; omega
        · have := hs.1 x hx; omega
      · intro _; rfl
    · rw [if_neg hble]
      by_cases hop : b.op = CommittingOp.Update
      · rw [if_neg (not_not_intro hop), ih hs.2]
        constructor
        · intro h x hx hlt
          rcases List.mem_cons.mp hx with hx | hx
          · rw [hx]; exact hop
          · exact h x hx hlt
        · intro h x hx hlt
          exact h x (List.mem_cons_of_mem _ hx) hlt
      · rw [if_pos hop]
        constructor
        · intro h; exact absurd h (by simp)
        · intro h
          exact absurd (h b (List.mem_cons_self _ _) (by omega)) hop

/-- Identity of a part: `(partition-id, min-block, max-block, level, mutation)`. -/
structure MergeTreePartInfo where
  partition_id : String
  min_block : Int
  max_block : Int
  level : Nat
  mutation : Int
deriving DecidableEq, Repr

/-- Modelled from the spec: `MergeTreeData::getMaxBlockNumber` (declared
outside this translation unit) returns the maximum block number over the
loaded parts, `0` when there are none. -/
def getMaxBlockNumber (parts : List MergeTreePartInfo) : Int :=
  (parts.map (fun p => p.max_block)).foldl max 0

/-- Modelled from the spec: `SimpleIncrement::get` (the per-table block
counter, declared outside this translation unit) pre-increments the stored
value and returns it. -/
def incrementGet (v : Int) : Int × Int := (v + 1, v + 1)

/-- The tail of `StorageMergeTree::loadMutations`: when the mutation map is
non-empty, raise `increment.value` to the largest mutation version
(`rbegin()->first`, the last key of the ascending map). -/
def loadMutationsIncrement (v : Int) (mutationVersions : List Int) : Int :=
  match mutationVersions.getLast? with
  | none => v
  | some last => max v last

/-- The allocator value after the constructor: `increment.set(getMaxBlockNumber())`
followed by the `loadMutations` adjustment. -/
def constructedIncrementValue
    (parts : List MergeTreePartInfo) (mutationVersions : List Int) : Int :=
  loadMutationsIncrement (getMaxBlockNumber parts) mutationVersions

/-- Allocator value after `n` calls of `increment.get()`. -/
def incrementAfter (v0 : Int) : Nat → Int
  | 0 => v0
  | n + 1 => (incrementGet (incrementAfter v0 n)).2

/-- The block number returned by the `(n+1)`-th call of
`StorageMergeTree::allocateBlockNumber` after the allocator held `v0`. -/
def nthAllocatedNumber (v0 : Int) (n : Nat) : Int :=
  (incrementGet (incrementAfter v0 n)).1

theorem foldl_max_init_le (l : List Int) (a : Int) : a ≤ l.foldl max a := by
  induction l generalizing a with
  | nil => exact le_refl a
  | cons x xs ih => exact le_trans (le_max_left a x) (ih (max a x))

theorem mem_le_foldl_max (l : List Int) (a x : Int) (hx : x ∈ l) :
    x ≤ l.foldl max a := by
  induction l generalizing a with
  | nil => cases hx
  | cons y ys ih =>
    rcases List.mem_cons.mp hx with h | h
    · subst h
      exact le_trans (le_max_right a x) (foldl_max_init_le ys (max a x))
    · exact ih (max a y) h

theorem incrementAfter_eq (v0 : Int) (n : Nat) : incrementAfter v0 n = v0 + n := by
  induction n with
  | zero => simp [incrementAfter]
  | succ k ih => simp [incrementAfter, incrementGet, ih]; ring

theorem nthAllocatedNumber_eq (v0 : Int) (n : Nat) :
    nthAllocatedNumber v0 n = v0 + n + 1 := by
  rw [nthAllocatedNumber, incrementGet, incrementAfter_eq]

theorem sorted_mem_le_getLast (l : List Int) (x : Int)
    (hs : l.Pairwise (fun a b => a ≤ b)) (hx : x ∈ l) :
    ∃ last, l.getLast? = some last ∧ x ≤ last := by
  induction l with
  | nil => cases hx
  | cons y ys ih =>
    rw [List.pairwise_cons] at hs
    rcases List.mem_cons.mp hx with h | h
    · subst h
      cases hys : ys.getLast? with
      | none =>
        rw [List.getLast?_eq_none_iff] at hys
        subst hys
        exact ⟨x, rfl, le_refl x⟩
      | some last =>
        refine ⟨last, ?_, hs.1 last (List.mem_of_mem_getLast? hys)⟩
        rw [List.getLast?_cons, hys]
        cases ys <;> simp_all
    · obtain ⟨last, hlast, hle⟩ := ih hs.2 h
      refine ⟨last, ?_, hle⟩
      rw [List.getLast?_cons, hlast]
      cases ys with
      | nil => cases h
      | cons _ _ => simp_all

/-- C3: after construction, the allocator high-water mark dominates the
maximum block number of the loaded parts and the version of every loaded
mutation entry, and every subsequently allocated block number is strictly
greater than all of them. -/
theorem increment_dominates_startup
    (parts : List MergeTreePartInfo) (mutationVersions : List Int)
    (hsorted : mutationVersions.Pairwise (fun a b => a ≤ b)) :
    (∀ p ∈ parts, p.max_block ≤ constructedIncrementValue parts mutationVersions)
    ∧ (∀ m ∈ mutationVersions, m ≤ constructedIncrementValue parts mutationVersions)
    ∧ (∀ n : Nat, ∀ p ∈ parts,
        p.max_block < nthAllocatedNumber (constructedIncrementValue parts mutationVersions) n)
    ∧ (∀ n : Nat, ∀ m ∈ mutationVersions,
        m < nthAllocatedNumber (constructedIncrementValue parts mutationVersions) n) := by
  have hbase : ∀ v muts, v ≤ loadMutationsIncrement v muts := by
    intro v muts
    rw [loadMutationsIncrement]
    cases muts.getLast? with
    | none => exact le_refl v
    | some last => exact le_max_left v last
  have hparts : ∀ p ∈ parts, p.max_block ≤ constructedIncrementValue parts mutationVersions := by
    intro p hp
    refine le_trans ?_ (hbase (getMaxBlockNumber parts) mutationVersions)
    exact mem_le_foldl_max _ 0 _ (List.mem_map_of_mem _ hp)
  have hmuts : ∀ m ∈ mutationVersions, m ≤ constructedIncrementValue parts mutationVersions := by
    intro m hm
    obtain ⟨last, hlast, hle⟩ := sorted_mem_le_getLast mutationVersions m hsorted hm
    rw [constructedIncrementValue, loadMutationsIncrement, hlast]
    exact le_trans hle (le_max_right _ last)
  refine ⟨hparts, hmuts, ?_, ?_⟩
  · intro n p hp
    have := hparts p hp
    rw [nthAllocatedNumber_eq]
    omega
  · intro n m hm
    have := hmuts m hm
    rw [nthAllocatedNumber_eq]
    omega

/-- Witness for C3 at a concrete startup state: one part with max block 5 and
mutation versions 3 and 7. -/
theorem increment_dominates_startup_witness :
    ((5 : Int) ≤ constructedIncrementValue
        [{ partition_id := "all", min_block := 1, max_block := 5, level := 0, mutation := 0 }] [3, 7])
    ∧ ((7 : Int) < nthAllocatedNumber (constructedIncrementValue
        [{ partition_id := "all", min_block := 1, max_block := 5, level := 0, mutation := 0 }] [3, 7]) 0) := by
  have h := increment_dominates_startup
    [{ partition_id := "all", min_block := 1, max_block := 5, level := 0, mutation := 0 }] [3, 7]
    (by decide)
  exact ⟨h.1 { partition_id := "all", min_block := 1, max_block := 5, level := 0, mutation := 0 }
      (by simp), h.2.2.2 0 7 (by simp)⟩

/-- C2: `waitForCommittingInsertsAndMutations(max_block_number, timeout_ms)`
returns normally exactly when, at some observed state within the timeout,
every committing block with number `< max_block_number` and op `≠ Update` has
been released (so blocks with op `= Update` or number `≥ max_block_number`
never block it); otherwise it throws `TIMEOUT_EXCEEDED`. -/
theorem waitForCommitting_returns_iff_released
    (states : List (List CommittingBlock)) (maxB : Int)
    (hsorted : ∀ s ∈ states, s.Pairwise (fun a b => a.number ≤ b.number)) :
    (waitForCommittingInsertsAndMutations states maxB = Except.ok () ↔
      ∃ s ∈ states, ∀ b ∈ s, b.number < maxB → b.op = CommittingOp.Update)
    ∧ (waitForCommittingInsertsAndMutations states maxB = Except.ok () ∨
        waitForCommittingInsertsAndMutations states maxB
          = Except.error MTError.TIMEOUT_EXCEEDED) := by
  have hiff : states.any (fun s => allCommitted s maxB) = true ↔
      ∃ s ∈ states, ∀ b ∈ s, b.number < maxB → b.op = CommittingOp.Update := by
    rw [List.any_eq_true]
    constructor
    · rintro ⟨s, hm, ha⟩
      exact ⟨s, hm, (allCommitted_eq_true_iff s maxB (hsorted s hm)).mp ha⟩
    · rintro ⟨s, hm, ha⟩
      exact ⟨s, hm, (allCommitted_eq_true_iff s maxB (hsorted s hm)).mpr ha⟩
  rw [waitForCommittingInsertsAndMutations]
  by_cases h : states.any (fun s => allCommitted s maxB) = true
  · rw [if_pos h]
    exact ⟨iff_of_true rfl (hiff.mp h), Or.inl rfl⟩
  · rw [if_neg h]
    exact ⟨iff_of_false (by simp) (fun he => h (hiff.mpr he)), Or.inr rfl⟩

/-- Witness for C2 at a concrete committing set: an `Update` block below the
bound and a `NewPart` block above it do not block the wait. -/
theorem waitForCommitting_returns_iff_released_witness :
    waitForCommittingInsertsAndMutations
      [[{ op := CommittingOp.Update, number := 1 },
        { op := CommittingOp.NewPart, number := 5 }]] 3 = Except.ok () := by
  have h := waitForCommitting_returns_iff_released
    [[{ op := CommittingOp.Update, number := 1 },
      { op := CommittingOp.NewPart, number := 5 }]] 3 (by decide)
  exact h.1.mpr ⟨_, List.mem_singleton.mpr rfl, by decide⟩

/-- Failure reasons of merge selection (`SelectMergeFailure::Reason`). -/
inductive SelectMergeReason where
  | CANNOT_SELECT
  | NOTHING_TO_MERGE
deriving DecidableEq, Repr

/-- The memory-pressure gate of `select_without_hint` in
`StorageMergeTree::selectPartsToMerge`: a single call of
`is_background_memory_usage_ok` at instant 0; on failure the selection fails
immediately with `CANNOT_SELECT`.  `memOk n` is the check's result at the
`n`-th check instant. -/
def selectWithoutHintMemoryGate (memOk : Nat → Bool) : Except SelectMergeReason Unit :=
  if memOk 0 then Except.ok () else Except.error SelectMergeReason.CANNOT_SELECT

/-- Number of one-second polling attempts: `timeout / poll_interval` with
`poll_interval = 1s` and the timeout in milliseconds. -/
def pollAttempts (timeout_ms : Nat) : Nat := timeout_ms / 1000

/-- The memory-pressure gate of `select_in_partition`: if the initial check
fails, re-check once per second (instants 1, 2, …) for `timeout / 1s`
attempts; if no attempt succeeds, fail with `CANNOT_SELECT`. -/
def selectInPartitionMemoryGate (memOk : Nat → Bool) (timeout_ms : Nat) :
    Except SelectMergeReason Unit :=
  if memOk 0 then Except.ok ()
  else if (List.range (pollAttempts timeout_ms)).any (fun i => memOk (i + 1)) then Except.ok ()
  else Except.error SelectMergeReason.CANNOT_SELECT

/-- C7: when background-task memory usage exceeds the soft limit at selection
time (`memOk 0 = false`), hint-less selection fails immediately with
`CANNOT_SELECT` (it consults no later instant), while hinted selection
succeeds exactly when one of the `timeout_ms / 1000` one-second re-checks
passes, and otherwise fails with `CANNOT_SELECT`. -/
theorem selectPartsToMerge_memory_gate (memOk : Nat → Bool) (timeout_ms : Nat)
    (hmem : memOk 0 = false) :
    selectWithoutHintMemoryGate memOk = Except.error SelectMergeReason.CANNOT_SELECT
    ∧ (selectInPartitionMemoryGate memOk timeout_ms = Except.ok ()
        ↔ ∃ i < timeout_ms / 1000, memOk (i + 1) = true)
    ∧ (selectInPartitionMemoryGate memOk timeout_ms = Except.ok ()
        ∨ selectInPartitionMemoryGate memOk timeout_ms
            = Except.error SelectMergeReason.CANNOT_SELECT) := by
  have hany : (List.range (pollAttempts timeout_ms)).any (fun i => memOk (i + 1)) = true ↔
      ∃ i < timeout_ms / 1000, memOk (i + 1) = true := by
    rw [List.any_eq_true]
    constructor
    · rintro ⟨i, hi, hok⟩
      exact ⟨i, by simpa [pollAttempts] using List.mem_range.mp hi, hok⟩
    · rintro ⟨i, hi, hok⟩
      exact ⟨i, List.mem_range.mpr (by simpa [pollAttempts] using hi), hok⟩
  refine ⟨by rw [selectWithoutHintMemoryGate, hmem]; rfl, ?_, ?_⟩
  · rw [selectInPartitionMemoryGate, hmem, if_neg (by simp)]
    by_cases h : (List.range (pollAttempts timeout_ms)).any (fun i => memOk (i + 1)) = true
    · rw [if_pos h]
      exact iff_of_true rfl (hany.mp h)
    · rw [if_neg h]
      exact iff_of_false (by simp) (fun he => h (hany.mpr he))
  · rw [selectInPartitionMemoryGate, hmem, if_neg (by simp)]
    by_cases h : (List.range (pollAttempts timeout_ms)).any (fun i => memOk (i + 1)) = true
    · rw [if_pos h]; exact Or.inl rfl
    · rw [if_neg h]; exact Or.inr rfl

/-- Witness for C7: memory is over the limit at instant 0 and recovers at
instant 2, within a 3-second timeout. -/
theorem selectPartsToMerge_memory_gate_witness :
    selectWithoutHintMemoryGate (fun n => decide (n = 2))
        = Except.error SelectMergeReason.CANNOT_SELECT
    ∧ selectInPartitionMemoryGate (fun n => decide (n = 2)) 3000 = Except.ok () := by
  have h := selectPartsToMerge_memory_gate (fun n => decide (n = 2)) 3000 (by decide)
  exact ⟨h.1, h.2.1.mpr ⟨1, by decide, by decide⟩⟩

/-- Position the part index at a given part, mirroring
`data_parts_by_info.find(info)`: the suffix of the ordered index starting at
the unique part with that identity. -/
def skipToPart (target : MergeTreePartInfo) : List MergeTreePartInfo → List MergeTreePartInfo
  | [] => []
  | p :: rest => if p = target then p :: rest else skipToPart target rest

/-- The loop of `StorageMergeTree::getMaxLevelInBetween`: starting from the
left part (the post-increment `begin++` initializes the loop iterator to the
original `begin`), accumulate `max` of levels while the iterator differs from
`end`; reaching the container end first means the parts were in the wrong
order (`LOGICAL_ERROR`).  The part at `end` (the right part) is not
processed. -/
def maxLevelScan (rightInfo : MergeTreePartInfo) :
    List MergeTreePartInfo → Nat → Except MTError Nat
  | [], _ => Except.error MTError.LOGICAL_ERROR
  | p :: rest, level =>
    if p = rightInfo then Except.ok level
    else maxLevelScan rightInfo rest (max level p.level)

/-- `StorageMergeTree::getMaxLevelInBetween(left, right)`.  Both lookups must
succeed (`LOGICAL_ERROR` otherwise), then the scan runs from `left` towards
`right`. -/
def getMaxLevelInBetween (parts : List MergeTreePartInfo)
    (left right : MergeTreePartInfo) : Except MTError Nat :=
  if left ∈ parts ∧ right ∈ parts then
    maxLevelScan right (skipToPart left parts) 0
  else Except.error MTError.LOGICAL_ERROR

/-- The claim's reading of `getMaxLevelInBetween`, following the spec's words:
the maximum level over the closed range from `left` to `right`, the right
part's own level included. -/
def maxLevelInBetweenInclusive (parts : List MergeTreePartInfo)
    (left right : MergeTreePartInfo) : Nat :=
  ((skipToPart left parts).takeWhile (fun p => p ≠ right)).foldl
    (fun level p => max level p.level) right.level

theorem skipToPart_append (pre rest : List MergeTreePartInfo)
    (target : MergeTreePartInfo) (hpre : target ∉ pre) :
    skipToPart target (pre ++ target :: rest) = target :: rest := by
  induction pre with
  | nil => simp [skipToPart]
  | cons p ps ih =>
    rw [List.cons_append, skipToPart,
      if_neg (by rintro rfl; exact hpre (List.mem_cons_self _ _))]
    exact ih (fun hm => hpre (List.mem_cons_of_mem p hm))

theorem maxLevelScan_reaches (seg post : List MergeTreePartInfo)
    (right : MergeTreePartInfo) (acc : Nat) (hseg : right ∉ seg) :
    maxLevelScan right (seg ++ right :: post) acc
      = Except.ok (seg.foldl (fun level p => max level p.level) acc) := by
  induction seg generalizing acc with
  | nil => simp [maxLevelScan]
  | cons p ps ih =>
    rw [List.cons_append, maxLevelScan,
      if_neg (by rintro rfl; exact hseg (List.mem_cons_self _ _)), List.foldl_cons]
    exact ih (max acc p.level) (fun hm => hseg (List.mem_cons_of_mem p hm))

/-- Counterexample to C8 at a concrete part index of two parts with levels 1
and 5: the code returns 1, while the claim's inclusive-range maximum (which
takes the right part's own level into account) is 5. -/
theorem getMaxLevelInBetween_counterexample :
    getMaxLevelInBetween
        [{ partition_id := "all", min_block := 1, max_block := 1, level := 1, mutation := 0 },
         { partition_id := "all", min_block := 2, max_block := 2, level := 5, mutation := 0 }]
        { partition_id := "all", min_block := 1, max_block := 1, level := 1, mutation := 0 }
        { partition_id := "all", min_block := 2, max_block := 2, level := 5, mutation := 0 }
      = Except.ok 1
    ∧ maxLevelInBetweenInclusive
        [{ partition_id := "all", min_block := 1, max_block := 1, level := 1, mutation := 0 },
         { partition_id := "all", min_block := 2, max_block := 2, level := 5, mutation := 0 }]
        { partition_id := "all", min_block := 1, max_block := 1, level := 1, mutation := 0 }
        { partition_id := "all", min_block := 2, max_block := 2, level := 5, mutation := 0 }
      = 5
    ∧ (1 : Nat) ≠ 5 := by
  exact ⟨rfl, by decide, by decide⟩

/-- C8 (amended): `getMaxLevelInBetween(left, right)` returns the maximum part
level over the half-open range from `left` (inclusive) to `right`
(exclusive): the right part's own level is not taken into account. -/
theorem getMaxLevelInBetween_half_open
    (pre mid post : List MergeTreePartInfo) (left right : MergeTreePartInfo)
    (hleftpre : left ∉ pre) (hright : right ∉ left :: mid) :
    getMaxLevelInBetween (pre ++ left :: (mid ++ right :: post)) left right
      = Except.ok ((left :: mid).foldl (fun level p => max level p.level) 0) := by
  rw [getMaxLevelInBetween, if_pos ?_, skipToPart_append pre _ left hleftpre]
  · have : left :: (mid ++ right :: post) = (left :: mid) ++ right :: post := by simp
    rw [this, maxLevelScan_reaches _ _ _ _ hright]
  · constructor
    · exact List.mem_append.mpr (Or.inr (List.mem_cons_self _ _))
    · refine List.mem_append.mpr (Or.inr (List.mem_cons_of_mem _ ?_))
      exact List.mem_append.mpr (Or.inr (List.mem_cons_self _ _))

/-- Witness for C8 (amended) at a three-part index with levels 1, 3, 5: the
result is 3, the maximum over the first two parts. -/
theorem getMaxLevelInBetween_half_open_witness :
    getMaxLevelInBetween
        [{ partition_id := "all", min_block := 1, max_block := 1, level := 1, mutation := 0 },
         { partition_id := "all", min_block := 2, max_block := 2, level := 3, mutation := 0 },
         { partition_id := "all", min_block := 3, max_block := 3, level := 5, mutation := 0 }]
        { partition_id := "all", min_block := 1, max_block := 1, level := 1, mutation := 0 }
        { partition_id := "all", min_block := 3, max_block := 3, level := 5, mutation := 0 }
      = Except.ok 3 := by
  have h := getMaxLevelInBetween_half_open []
      [{ partition_id := "all", min_block := 2, max_block := 2, level := 3, mutation := 0 }] []
      { partition_id := "all", min_block := 1, max_block := 1, level := 1, mutation := 0 }
      { partition_id := "all", min_block := 3, max_block := 3, level := 5, mutation := 0 }
      (by decide) (by decide)
  simpa using h

/-- A part as seen by `movePartitionToTable`: its identity, whether it is
visible to the query's snapshot, and whether
`canReplacePartition` accepts it (granularity compatibility). -/
structure MovePart where
  info : MergeTreePartInfo
  visible : Bool
  can_replace : Bool
deriving DecidableEq, Repr

/-- `getVisibleDataPartsVectorInPartition`: the visible source parts of the
moved partition. -/
def visibleInPartition (partitionId : String) (parts : List MovePart) : List MovePart :=
  parts.filter (fun p => p.visible && decide (p.info.partition_id = partitionId))

/-- `StorageMergeTree::movePartitionToTable(dest, partition)` restricted to
its part-set effect.  Returns the outcome together with the final part sets of
the source and destination tables; a thrown exception leaves both unchanged.
The policy-compatibility test comes first.  Next the destination table runs
the INSERT back-pressure check `delayInsertOrThrowIfNeeded` (declared outside
this translation unit; the call site reuses the insert delay/throw logic so
that MOVE cannot exceed the destination's part limits), which throws
`TooManyParts` when the destination holds too many active parts — whether it
throws is the oracle parameter `destBackPressureThrows`.  Then the
`max_parts_to_move` bound is checked on the visible parts of the partition
before any part is cloned; cloning rejects granularity-incompatible parts
(`LOGICAL_ERROR`); an empty selection returns with no change; otherwise the
cloned parts are installed in the destination and the sources are removed
from the source's working set in the same transaction. -/
def movePartitionToTable (policiesCompatible : Bool) (destBackPressureThrows : Bool)
    (maxPartsToMove : Nat) (partitionId : String) (srcParts destParts : List MovePart) :
    Except MTError Unit × List MovePart × List MovePart :=
  if ¬policiesCompatible then
    (Except.error MTError.UNKNOWN_POLICY, srcParts, destParts)
  else if destBackPressureThrows then
    (Except.error MTError.TOO_MANY_PARTS, srcParts, destParts)
  else
    let src_parts := visibleInPartition partitionId srcParts
    if maxPartsToMove < src_parts.length then
      (Except.error MTError.TOO_MANY_PARTS, srcParts, destParts)
    else if src_parts.any (fun p => !p.can_replace) then
      (Except.error MTError.LOGICAL_ERROR, srcParts, destParts)
    else if src_parts.isEmpty then
      (Except.ok (), srcParts, destParts)
    else
      (Except.ok (),
        srcParts.filter (fun p => !(p.visible && decide (p.info.partition_id = partitionId))),
        destParts ++ src_parts)

/-- Counterexample to C9 as stated: when the destination's insert
back-pressure check trips, `movePartitionToTable` throws `TooManyParts`
although the moved partition holds no visible source part at all (limit 5) —
the number of parts to move does not exceed `max_parts_to_move`, refuting
the claim's only-if direction. -/
theorem movePartitionToTable_counterexample :
    (movePartitionToTable true true 5 "p" [] []).1
      = Except.error MTError.TOO_MANY_PARTS
    ∧ ¬(5 < (visibleInPartition "p" []).length) := by
  exact ⟨rfl, by decide⟩

/-- C9 (amended): `movePartitionToTable` throws `TooManyParts` exactly when
the destination's insert back-pressure check trips or the number of visible
source parts in the moved partition exceeds `max_parts_to_move`; in either
case the throw precedes any clone or removal, so both tables' part sets are
unchanged.  Hypotheses: the storage policies are compatible and every
selected part passes the granularity check, the other error paths. -/
theorem movePartitionToTable_too_many_parts
    (bp : Bool) (maxMove : Nat) (pid : String) (src dest : List MovePart)
    (hrep : ∀ p ∈ visibleInPartition pid src, p.can_replace = true) :
    ((movePartitionToTable true bp maxMove pid src dest).1
        = Except.error MTError.TOO_MANY_PARTS
      ↔ (bp = true ∨ maxMove < (visibleInPartition pid src).length))
    ∧ ((bp = true ∨ maxMove < (visibleInPartition pid src).length) →
        (movePartitionToTable true bp maxMove pid src dest).2.1 = src
        ∧ (movePartitionToTable true bp maxMove pid src dest).2.2 = dest) := by
  rw [movePartitionToTable]
  simp only [not_true_eq_false, if_false, Bool.false_eq_true]
  cases bp with
  | true =>
    rw [if_pos rfl]
    exact ⟨iff_of_true rfl (Or.inl rfl), fun _ => ⟨rfl, rfl⟩⟩
  | false =>
    rw [if_neg (by simp)]
    by_cases hcnt : maxMove < (visibleInPartition pid src).length
    · rw [if_pos hcnt]
      exact ⟨iff_of_true rfl (Or.inr hcnt), fun _ => ⟨rfl, rfl⟩⟩
    · rw [if_neg hcnt]
      have hnorep : (visibleInPartition pid src).any (fun p => !p.can_replace) = false := by
        rw [List.any_eq_false]
        intro p hp
        simp [hrep p hp]
      rw [hnorep]
      have hnone : ¬((false : Bool) = true ∨ maxMove < (visibleInPartition pid src).length) := by
        rintro (h | h)
        · cases h
        · exact hcnt h
      refine ⟨iff_of_false ?_ hnone, fun hc => absurd hc hnone⟩
      by_cases hemp : (visibleInPartition pid src).isEmpty
      · simp [hemp]
      · simp [hemp]

/-- Witness for C9 (amended): with no destination back-pressure, two visible
parts in partition "p" with limit 1 trigger `TooManyParts`. -/
theorem movePartitionToTable_too_many_parts_witness :
    (movePartitionToTable true false 1 "p"
        [{ info := { partition_id := "p", min_block := 1, max_block := 1, level := 0, mutation := 0 },
           visible := true, can_replace := true },
         { info := { partition_id := "p", min_block := 2, max_block := 2, level := 0, mutation := 0 },
           visible := true, can_replace := true }] []).1
      = Except.error MTError.TOO_MANY_PARTS := by
  have h := movePartitionToTable_too_many_parts false 1 "p"
    [{ info := { partition_id := "p", min_block := 1, max_block := 1, level := 0, mutation := 0 },
       visible := true, can_replace := true },
     { info := { partition_id := "p", min_block := 2, max_block := 2, level := 0, mutation := 0 },
       visible := true, can_replace := true }] []
    (by decide)
  exact h.1.mpr (Or.inr (by decide))

/-- Kinds of mutation commands distinguished by selection
(`MutationCommand::Type`). -/
inductive MutationCommandType where
  | UPDATE
  | DELETE
  | MATERIALIZE_INDEX
  | DROP_COLUMN
  | DROP_INDEX
  | DROP_PROJECTION
  | DROP_STATISTICS
  | RENAME_COLUMN
deriving DecidableEq, Repr

/-- A mutation command with the size of its AST (`command.ast->size()`). -/
structure MutationCommand where
  type : MutationCommandType
  astSize : Nat
deriving DecidableEq, Repr

/-- The command kinds that `selectPartsToMutate` exempts from interpreter size
validation, charging `ast->size()` directly: DROP-COLUMN/INDEX/PROJECTION/
STATISTICS and RENAME-COLUMN.  The same five kinds constitute the *barrier*
commands of `MutationCommands::containBarrierCommand` (declared outside this
translation unit; modelled from the spec's barrier list). -/
def isBarrierType (t : MutationCommandType) : Bool :=
  match t with
  | MutationCommandType.DROP_COLUMN => true
  | MutationCommandType.DROP_INDEX => true
  | MutationCommandType.DROP_PROJECTION => true
  | MutationCommandType.DROP_STATISTICS => true
  | MutationCommandType.RENAME_COLUMN => true
  | _ => false

/-- Modelled from the spec: `MutationCommands::containBarrierCommand` — some
command is a barrier (DROP-COLUMN/INDEX/PROJECTION/STATISTICS or
RENAME-COLUMN). -/
def containBarrierCommand (cmds : List MutationCommand) : Bool :=
  cmds.any (fun c => isBarrierType c.type)

/-- The per-entry command size computed by `selectPartsToMutate`: barrier-kind
commands contribute `ast->size()` directly; the remaining commands are handed
to the mutations interpreter, whose `evaluateCommandsSize` (external) is the
parameter `evalSize`. -/
def commandsSize (evalSize : List MutationCommand → Nat)
    (cmds : List MutationCommand) : Nat :=
  let validation := cmds.filter (fun c => !isBarrierType c.type)
  let direct := (cmds.filter (fun c => isBarrierType c.type)).foldl
    (fun acc c => acc + c.astSize) 0
  direct + (if validation.isEmpty then 0 else evalSize validation)

/-- A mutation entry (`MergeTreeMutationEntry`): its version
(`block_number`), origin transaction id (`0` is the prehistoric tid), command
list, and bookkeeping fields. -/
structure MergeTreeMutationEntry where
  block_number : Int
  tid : Nat
  commands : List MutationCommand
  csn : Option Nat := none
  is_done : Bool := false
  latest_failed_part : String := ""
  latest_failed_part_info : MergeTreePartInfo :=
    { partition_id := "", min_block := 0, max_block := 0, level := 0, mutation := 0 }
  latest_fail_time : Nat := 0
  latest_fail_reason : String := ""
  latest_fail_error_code_name : String := ""
deriving DecidableEq, Repr

/-- Running state of the squash loop in `selectPartsToMutate`: the entries
applied so far, the flat `commands` batch, `current_ast_elements`, and the
version of `last_mutation_to_apply` (`none` = `mutations_end_it`). -/
structure SquashState where
  batch : List MergeTreeMutationEntry
  cmds : List MutationCommand
  cur : Nat
  lastToApply : Option Int
deriving DecidableEq, Repr

/-- The squash loop of `selectPartsToMutate` (`for (auto it =
mutations_begin_it; it != mutations_end_it; ++it)`): stop at an entry of a
different origin transaction; stop when the accumulated command size would
reach `max_expanded_ast_elements`; a barrier entry is applied only when the
batch is still empty and always terminates the loop; otherwise the entry's
commands are appended and the scan continues. -/
def squashLoop (evalSize : List MutationCommand → Nat) (maxAst : Nat) (firstTid : Nat) :
    List MergeTreeMutationEntry → SquashState → SquashState
  | [], st => st
  | e :: rest, st =>
    if e.tid ≠ firstTid then st
    else if maxAst ≤ st.cur + commandsSize evalSize e.commands then st
    else if containBarrierCommand e.commands then
      if st.cmds.isEmpty then
        { batch := st.batch ++ [e], cmds := st.cmds ++ e.commands,
          cur := st.cur, lastToApply := some e.block_number }
      else st
    else
      squashLoop evalSize maxAst firstTid rest
        { batch := st.batch ++ [e], cmds := st.cmds ++ e.commands,
          cur := st.cur + commandsSize evalSize e.commands,
          lastToApply := some e.block_number }

/-- Mutation-batch selection for one not-busy Active part in
`selectPartsToMutate`: position at
`current_mutations_by_version.upper_bound(part.info.getDataVersion())` —
on the ascending map, drop the entries with version `≤ data-version` — and
squash from there with the first entry's tid. -/
def selectMutationBatch (evalSize : List MutationCommand → Nat) (maxAst : Nat)
    (mutations : List MergeTreeMutationEntry) (dataVersion : Int) : SquashState :=
  let begins := mutations.dropWhile (fun e => decide (e.block_number ≤ dataVersion))
  match begins with
  | [] => { batch := [], cmds := [], cur := 0, lastToApply := none }
  | first :: _ =>
    squashLoop evalSize maxAst first.tid begins
      { batch := [], cmds := [], cur := 0, lastToApply := none }

/-- The `mutation` field of the emitted future part: set to
`last_mutation_to_apply->first` when the accumulated command batch is
non-empty, no future part otherwise. -/
def emittedFutureMutation (evalSize : List MutationCommand → Nat) (maxAst : Nat)
    (mutations : List MergeTreeMutationEntry) (dataVersion : Int) : Option Int :=
  let st := selectMutationBatch evalSize maxAst mutations dataVersion
  if st.cmds.isEmpty then none else st.lastToApply

theorem squashLoop_spec (evalSize : List MutationCommand → Nat) (maxAst : Nat)
    (firstTid : Nat) (entries : List MergeTreeMutationEntry) (st : SquashState) :
    ∃ added : List MergeTreeMutationEntry,
      (squashLoop evalSize maxAst firstTid entries st).batch = st.batch ++ added
      ∧ added <+: entries
      ∧ (∀ e ∈ added, e.tid = firstTid)
      ∧ (squashLoop evalSize maxAst firstTid entries st).cmds
          = st.cmds ++ (added.map (fun e => e.commands)).flatten
      ∧ (added ≠ [] →
          st.cur + ((added.map (fun e => commandsSize evalSize e.commands)).sum) < maxAst)
      ∧ (∀ e ∈ added, containBarrierCommand e.commands = true →
          ∃ pre, added = pre ++ [e] ∧ (∀ e' ∈ pre, e'.commands = []) ∧ st.cmds = [])
      ∧ (squashLoop evalSize maxAst firstTid entries st).lastToApply
          = (match added.getLast? with
             | none => st.lastToApply
             | some e => some e.block_number) := by
  induction entries generalizing st with
  | nil =>
    exact ⟨[], by simp [squashLoop], List.nil_prefix, by simp, by simp [squashLoop],
      by simp, by simp, by simp [squashLoop]⟩
  | cons e rest ih =>
    rw [squashLoop]
    by_cases htid : e.tid ≠ firstTid
    · rw [if_pos htid]
      exact ⟨[], by simp, List.nil_prefix, by simp, by simp, by simp, by simp, by simp⟩
    · rw [if_neg htid]
      by_cases hsz : maxAst ≤ st.cur + commandsSize evalSize e.commands
      · rw [if_pos hsz]
        exact ⟨[], by simp, List.nil_prefix, by simp, by simp, by simp, by simp, by simp⟩
      · rw [if_neg hsz]
        by_cases hbar : containBarrierCommand e.commands = true
        · rw [if_pos hbar]
          by_cases hemp : st.cmds.isEmpty = true
          · rw [if_pos hemp]
            refine ⟨[e], rfl, ⟨rest, rfl⟩, ?_, by simp, ?_, ?_, by simp⟩
            · intro x hx
              rw [List.mem_singleton.mp hx]
              exact not_not.mp htid
            · intro _
              simp only [List.map_cons, List.map_nil, List.sum_cons, List.sum_nil]
              omega
            · intro x hx _
              refine ⟨[], by simp [List.mem_singleton.mp hx], by simp, List.isEmpty_iff.mp hemp⟩
          · rw [if_neg hemp]
            exact ⟨[], by simp, List.nil_prefix, by simp, by simp, by simp, by simp, by simp⟩
        · rw [if_neg hbar]
          obtain ⟨added, h1, h2, h3, h4, h5, h6, h7⟩ := ih
            { batch := st.batch ++ [e], cmds := st.cmds ++ e.commands,
              cur := st.cur + commandsSize evalSize e.commands,
              lastToApply := some e.block_number }
          refine ⟨e :: added, ?_, ?_, ?_, ?_, ?_, ?_, ?_⟩
          · rw [h1]; simp
          · obtain ⟨t, ht⟩ := h2
            exact ⟨t, by simp [ht]⟩
          · intro x hx
            rcases List.mem_cons.mp hx with hx | hx
            · rw [hx]; exact not_not.mp htid
            · exact h3 x hx
          · rw [h4]; simp
          · intro _
            simp only [List.map_cons, List.sum_cons]
            rcases Decidable.em (added = []) with hadd | hadd
            · subst hadd
              simp only [List.map_nil, List.sum_nil]
              omega
            · have := h5 hadd
              simp only at this
              omega
          · intro x hx hxbar
            rcases List.mem_cons.mp hx with hx | hx
            · rw [hx] at hxbar
              exact absurd hxbar hbar
            · obtain ⟨pre, hpre, hempty, hcmds⟩ := h6 x hx hxbar
              simp only at hcmds
              obtain ⟨hstc, hec⟩ := List.append_eq_nil.mp hcmds
              refine ⟨e :: pre, by rw [List.cons_append, hpre], ?_, hstc⟩
              intro x' hx'
              rcases List.mem_cons.mp hx' with hx' | hx'
              · rw [hx']; exact hec
              · exact hempty x' hx'
          · rw [h7]
            cases added with
            | nil => simp
            | cons a l =>
              cases hgl : (a :: l).getLast? with
              | none => simp at hgl
              | some y => rw [List.getLast?_cons_cons, hgl]
theorem dropWhile_version_gt (mutations : List MergeTreeMutationEntry) (dv : Int)
    (hs : mutations.Pairwise (fun a b => a.block_number ≤ b.block_number)) :
    ∀ e ∈ mutations.dropWhile (fun e => decide (e.block_number ≤ dv)),
      dv < e.block_number := by
  induction mutations with
  | nil => simp
  | cons m ms ih =>
    rw [List.pairwise_cons] at hs
    rw [List.dropWhile_cons]
    by_cases hm : m.block_number ≤ dv
    · rw [if_pos (by simpa using hm)]
      exact ih hs.2
    · rw [if_neg (by simpa using hm)]
      intro e he
      rcases List.mem_cons.mp he with he | he
      · subst he; omega
      · have := hs.1 e he; omega

/-- C1: for a not-busy Active part with data version `dv`, the mutation batch
selected by `selectPartsToMutate` is a prefix of the version-ascending run of
entries starting at the smallest version greater than `dv`; every batched
entry has a version above `dv` and the origin tid of the first such entry;
the accumulated command size of a non-empty batch stays below
`max_expanded_ast_elements`; a barrier entry can only close the batch, with
nothing but command-less entries before it; the applied command list is the
concatenation of the batch, and the emitted future part carries
`mutation` = the version of the last included entry (no future part when the
command batch is empty). -/
theorem selectPartsToMutate_batch_spec
    (evalSize : List MutationCommand → Nat) (maxAst : Nat)
    (mutations : List MergeTreeMutationEntry) (dv : Int)
    (begins : List MergeTreeMutationEntry) (st : SquashState)
    (hs : mutations.Pairwise (fun a b => a.block_number ≤ b.block_number))
    (hbeg : begins = mutations.dropWhile (fun e => decide (e.block_number ≤ dv)))
    (hst : st = selectMutationBatch evalSize maxAst mutations dv) :
    st.batch <+: begins
    ∧ (∀ e ∈ st.batch, dv < e.block_number)
    ∧ (∀ e ∈ st.batch, ∀ f, begins.head? = some f → e.tid = f.tid)
    ∧ (st.batch ≠ [] →
        (st.batch.map (fun e => commandsSize evalSize e.commands)).sum < maxAst)
    ∧ (∀ e ∈ st.batch, containBarrierCommand e.commands = true →
        ∃ pre, st.batch = pre ++ [e] ∧ ∀ e' ∈ pre, e'.commands = [])
    ∧ st.cmds = (st.batch.map (fun e => e.commands)).flatten
    ∧ emittedFutureMutation evalSize maxAst mutations dv
        = (if st.cmds.isEmpty then none
           else st.batch.getLast?.map (fun e => e.block_number)) := by
  cases hb : begins with
  | nil =>
    have hsel : selectMutationBatch evalSize maxAst mutations dv
        = { batch := [], cmds := [], cur := 0, lastToApply := none } := by
      rw [selectMutationBatch, ← hbeg, hb]
    subst hst
    rw [hsel]
    refine ⟨List.nil_prefix, by simp, by simp, by simp, by simp, by simp, ?_⟩
    rw [emittedFutureMutation, hsel]
    rfl
  | cons first rest =>
    subst hb
    have hsel : selectMutationBatch evalSize maxAst mutations dv
        = squashLoop evalSize maxAst first.tid (first :: rest)
            { batch := [], cmds := [], cur := 0, lastToApply := none } := by
      rw [selectMutationBatch, ← hbeg]
    obtain ⟨added, h1, h2, h3, h4, h5, h6, h7⟩ :=
      squashLoop_spec evalSize maxAst first.tid (first :: rest)
        { batch := [], cmds := [], cur := 0, lastToApply := none }
    simp only [List.nil_append] at h1 h4 h5
    have hbatch : st.batch = added := by rw [hst, hsel, h1]
    have hcmds : st.cmds = (added.map (fun e => e.commands)).flatten := by
      rw [hst, hsel, h4]
    refine ⟨?_, ?_, ?_, ?_, ?_, ?_, ?_⟩
    · rw [hbatch]; exact h2
    · intro e he
      rw [hbatch] at he
      exact dropWhile_version_gt mutations dv hs e
        (hbeg ▸ (h2.sublist.subset he))
    · intro e he f hf
      rw [hbatch] at he
      simp only [List.head?_cons, Option.some.injEq] at hf
      rw [← hf]
      exact h3 e he
    · intro hne
      rw [hbatch] at hne ⊢
      simpa using h5 hne
    · intro e he hebar
      rw [hbatch] at he ⊢
      obtain ⟨pre, hpre, hempty, _⟩ := h6 e he hebar
      exact ⟨pre, hpre, hempty⟩
    · rw [hbatch]; exact hcmds
    · have hlast2 : st.lastToApply = added.getLast?.map (fun e => e.block_number) := by
        rw [hst, hsel, h7]
        cases added.getLast? <;> rfl
      rw [emittedFutureMutation, ← hst, hbatch, hlast2]

/-- Interpreter size oracle used by concrete examples: one AST element per
command. -/
def demoEvalSize : List MutationCommand → Nat := fun cmds => cmds.length

/-- Three mutations of one transaction: two UPDATEs and a DROP COLUMN
barrier (the spec's squash-with-barrier scenario). -/
def demoMutations : List MergeTreeMutationEntry :=
  [{ block_number := 2, tid := 0,
     commands := [{ type := MutationCommandType.UPDATE, astSize := 1 }] },
   { block_number := 3, tid := 0,
     commands := [{ type := MutationCommandType.UPDATE, astSize := 1 }] },
   { block_number := 4, tid := 0,
     commands := [{ type := MutationCommandType.DROP_COLUMN, astSize := 1 }] }]

/-- Witness for C1: on the two-UPDATEs-then-DROP scenario with data version 1,
every batched entry has version above 1, the emitted future part follows the
last batched entry, and its `mutation` is 3 (the DROP barrier is left out). -/
theorem selectPartsToMutate_batch_spec_witness :
    (∀ e ∈ (selectMutationBatch demoEvalSize 100 demoMutations 1).batch,
        (1 : Int) < e.block_number)
    ∧ emittedFutureMutation demoEvalSize 100 demoMutations 1
        = (if (selectMutationBatch demoEvalSize 100 demoMutations 1).cmds.isEmpty then none
           else (selectMutationBatch demoEvalSize 100 demoMutations 1).batch.getLast?.map
              (fun e => e.block_number))
    ∧ emittedFutureMutation demoEvalSize 100 demoMutations 1 = some 3 := by
  have h := selectPartsToMutate_batch_spec demoEvalSize 100 demoMutations 1
    (demoMutations.dropWhile (fun e => decide (e.block_number ≤ 1)))
    (selectMutationBatch demoEvalSize 100 demoMutations 1)
    (by decide) rfl rfl
  exact ⟨h.2.1, h.2.2.2.2.2.2, by rfl⟩


/-- Modelled from the spec: `MergeTreePartInfo::getDataVersion` (declared
outside this translation unit) — a part's data version is
`max(max-block, mutation)`. -/
def getDataVersion (p : MergeTreePartInfo) : Int := max p.max_block p.mutation

/-- Modelled from the spec: the covering order on part infos
(`MergeTreePartInfo::contains`) — `p` covers `q` iff the partition ids match,
`p.min-block ≤ q.min-block`, `p.max-block ≥ q.max-block`, and
`p.mutation ≥ q.mutation`. -/
def partContains (p q : MergeTreePartInfo) : Bool :=
  decide (p.partition_id = q.partition_id) && decide (p.min_block ≤ q.min_block)
    && decide (q.max_block ≤ p.max_block) && decide (q.mutation ≤ p.mutation)

/-- Modelled from the spec: the per-part failure map of the backoff
controller (`PartMutationBackoffPolicy`, declared outside this translation
unit), reduced to the fail counts. -/
def backoffContains (b : List (String × Nat)) (name : String) : Bool :=
  b.any (fun e => decide (e.1 = name))

/-- Modelled from the spec: register a mutation failure of a part — bump its
fail count, inserting it if absent. -/
def addPartMutationFailure (b : List (String × Nat)) (name : String) :
    List (String × Nat) :=
  if backoffContains b name then
    b.map (fun e => if e.1 = name then (e.1, e.2 + 1) else e)
  else (name, 1) :: b

/-- Modelled from the spec: clear the backoff record of one part. -/
def removePartFromFailed (b : List (String × Nat)) (name : String) :
    List (String × Nat) :=
  b.filter (fun e => !decide (e.1 = name))

/-- Modelled from the spec: clear the whole per-part failure map
(`resetMutationFailures`). -/
def resetMutationFailures : List (String × Nat) := []

/-- Clearing of an entry's latest-fail fields on a successful result
(`updateMutationEntriesErrors`, success branch). -/
def clearEntryFailFields (e : MergeTreeMutationEntry) : MergeTreeMutationEntry :=
  { e with
    latest_failed_part := ""
    latest_failed_part_info :=
      { partition_id := "", min_block := 0, max_block := 0, level := 0, mutation := 0 }
    latest_fail_time := 0
    latest_fail_reason := ""
    latest_fail_error_code_name := "" }

/-- Setting of an entry's latest-fail fields on a failed result
(`updateMutationEntriesErrors`, failure branch). -/
def setEntryFailFields (e : MergeTreeMutationEntry) (failedPartName : String)
    (failedPartInfo : MergeTreePartInfo) (now : Nat) (msg codeName : String) :
    MergeTreeMutationEntry :=
  { e with
    latest_failed_part := failedPartName
    latest_failed_part_info := failedPartInfo
    latest_fail_time := now
    latest_fail_reason := msg
    latest_fail_error_code_name := codeName }

/-- The per-entry loop of `StorageMergeTree::updateMutationEntriesErrors`,
threading the backoff map: an entry with version in `(source-data-version,
result-data-version]` has its latest-fail fields cleared on success (when a
failed part is recorded and the result part's info contains it) or set on
failure; the backoff map is touched only at the entry whose version equals
the result part's mutation version.  Entries outside the interval pass
through. -/
def updateMutationEntriesLoop (isSuccessful : Bool)
    (resultInfo : MergeTreePartInfo) (failedPartName : String)
    (failedPartInfo : MergeTreePartInfo) (now : Nat) (msg codeName : String)
    (srcDV resDV : Int) :
    List MergeTreeMutationEntry → List (String × Nat) →
      List MergeTreeMutationEntry × List (String × Nat)
  | [], b => ([], b)
  | e :: rest, b =>
    if srcDV < e.block_number ∧ e.block_number ≤ resDV then
      if isSuccessful then
        if e.latest_failed_part ≠ "" ∧ partContains resultInfo e.latest_failed_part_info = true then
          (clearEntryFailFields e ::
            (updateMutationEntriesLoop isSuccessful resultInfo failedPartName
              failedPartInfo now msg codeName srcDV resDV rest
              (if resultInfo.mutation = e.block_number
                then removePartFromFailed b failedPartName else b)).1,
           (updateMutationEntriesLoop isSuccessful resultInfo failedPartName
              failedPartInfo now msg codeName srcDV resDV rest
              (if resultInfo.mutation = e.block_number
                then removePartFromFailed b failedPartName else b)).2)
        else
          (e :: (updateMutationEntriesLoop isSuccessful resultInfo failedPartName
              failedPartInfo now msg codeName srcDV resDV rest b).1,
           (updateMutationEntriesLoop isSuccessful resultInfo failedPartName
              failedPartInfo now msg codeName srcDV resDV rest b).2)
      else
        (setEntryFailFields e failedPartName failedPartInfo now msg codeName ::
          (updateMutationEntriesLoop isSuccessful resultInfo failedPartName
            failedPartInfo now msg codeName srcDV resDV rest
            (if resultInfo.mutation = e.block_number
              then addPartMutationFailure b failedPartName else b)).1,
         (updateMutationEntriesLoop isSuccessful resultInfo failedPartName
            failedPartInfo now msg codeName srcDV resDV rest
            (if resultInfo.mutation = e.block_number
              then addPartMutationFailure b failedPartName else b)).2)
    else
      (e :: (updateMutationEntriesLoop isSuccessful resultInfo failedPartName
          failedPartInfo now msg codeName srcDV resDV rest b).1,
       (updateMutationEntriesLoop isSuccessful resultInfo failedPartName
          failedPartInfo now msg codeName srcDV resDV rest b).2)

/-- `StorageMergeTree::updateMutationEntriesErrors(result_part, is_successful,
exception_message, error_code_name)`: nothing happens when source and result
data versions coincide; otherwise the entries with versions in
`(sources_data_version, result_data_version]` — the `upper_bound` /
`upper_bound` iterator range on the ascending map — are updated. -/
def updateMutationEntriesErrors (mutations : List MergeTreeMutationEntry)
    (backoff : List (String × Nat)) (sourceInfo resultInfo : MergeTreePartInfo)
    (failedPartName : String) (failedPartInfo : MergeTreePartInfo)
    (isSuccessful : Bool) (msg codeName : String) (now : Nat) :
    List MergeTreeMutationEntry × List (String × Nat) :=
  if getDataVersion sourceInfo = getDataVersion resultInfo then (mutations, backoff)
  else
    updateMutationEntriesLoop isSuccessful resultInfo failedPartName failedPartInfo
      now msg codeName (getDataVersion sourceInfo) (getDataVersion resultInfo)
      mutations backoff


theorem backoffContains_add_self (b : List (String × Nat)) (name : String) :
    backoffContains (addPartMutationFailure b name) name = true := by
  rw [addPartMutationFailure]
  by_cases hc : backoffContains b name = true
  · rw [if_pos hc]
    rw [backoffContains] at hc ⊢
    obtain ⟨e, he, hname⟩ := List.any_eq_true.mp hc
    refine List.any_eq_true.mpr ⟨(e.1, e.2 + 1), ?_, hname⟩
    have : (fun x : String × Nat => if x.1 = name then (x.1, x.2 + 1) else x) e
        = (e.1, e.2 + 1) := by
      simp [of_decide_eq_true hname]
    exact this ▸ List.mem_map_of_mem _ he
  · rw [if_neg hc]
    rw [backoffContains]
    exact List.any_eq_true.mpr ⟨(name, 1), List.mem_cons_self _ _, by simp⟩

theorem backoffContains_add_mono (b : List (String × Nat)) (name other : String)
    (h : backoffContains b other = true) :
    backoffContains (addPartMutationFailure b name) other = true := by
  rw [addPartMutationFailure]
  by_cases hc : backoffContains b name = true
  · rw [if_pos hc]
    rw [backoffContains] at h ⊢
    obtain ⟨e, he, hother⟩ := List.any_eq_true.mp h
    refine List.any_eq_true.mpr
      ⟨(fun x : String × Nat => if x.1 = name then (x.1, x.2 + 1) else x) e,
        List.mem_map_of_mem _ he, ?_⟩
    by_cases he1 : e.1 = name
    · simpa [he1] using hother
    · simpa [he1] using hother
  · rw [if_neg hc]
    rw [backoffContains] at h ⊢
    obtain ⟨e, he, hother⟩ := List.any_eq_true.mp h
    exact List.any_eq_true.mpr ⟨e, List.mem_cons_of_mem _ he, hother⟩

theorem updateLoop_backoff_mono
    (resultInfo : MergeTreePartInfo) (failedPartName : String)
    (failedPartInfo : MergeTreePartInfo) (now : Nat) (msg codeName : String)
    (srcDV resDV : Int) (muts : List MergeTreeMutationEntry)
    (b : List (String × Nat)) (name : String)
    (h : backoffContains b name = true) :
    backoffContains
      (updateMutationEntriesLoop false resultInfo failedPartName failedPartInfo
        now msg codeName srcDV resDV muts b).2 name = true := by
  induction muts generalizing b with
  | nil => exact h
  | cons e rest ih =>
    rw [updateMutationEntriesLoop]
    by_cases hint : srcDV < e.block_number ∧ e.block_number ≤ resDV
    · rw [if_pos hint, if_neg (by simp : ¬ (false : Bool) = true)]
      by_cases hmut : resultInfo.mutation = e.block_number
      · rw [if_pos hmut]
        exact ih _ (backoffContains_add_mono b failedPartName name h)
      · rw [if_neg hmut]
        exact ih b h
    · rw [if_neg hint]
      exact ih b h

theorem updateLoop_registers_failure
    (resultInfo : MergeTreePartInfo) (failedPartName : String)
    (failedPartInfo : MergeTreePartInfo) (now : Nat) (msg codeName : String)
    (srcDV resDV : Int) (muts : List MergeTreeMutationEntry)
    (b : List (String × Nat))
    (hwit : ∃ e ∈ muts, (srcDV < e.block_number ∧ e.block_number ≤ resDV)
      ∧ resultInfo.mutation = e.block_number) :
    backoffContains
      (updateMutationEntriesLoop false resultInfo failedPartName failedPartInfo
        now msg codeName srcDV resDV muts b).2 failedPartName = true := by
  induction muts generalizing b with
  | nil => obtain ⟨e, he, _⟩ := hwit; cases he
  | cons e rest ih =>
    rw [updateMutationEntriesLoop]
    obtain ⟨w, hw, hwint, hwmut⟩ := hwit
    rcases List.mem_cons.mp hw with hw | hw
    · subst hw
      rw [if_pos hwint, if_neg (by simp : ¬ (false : Bool) = true), if_pos hwmut]
      exact updateLoop_backoff_mono resultInfo failedPartName failedPartInfo
        now msg codeName srcDV resDV rest _ failedPartName
        (backoffContains_add_self b failedPartName)
    · have hrest : ∃ x ∈ rest, (srcDV < x.block_number ∧ x.block_number ≤ resDV)
          ∧ resultInfo.mutation = x.block_number := ⟨w, hw, hwint, hwmut⟩
      by_cases hint : srcDV < e.block_number ∧ e.block_number ≤ resDV
      · rw [if_pos hint, if_neg (by simp : ¬ (false : Bool) = true)]
        by_cases hmut : resultInfo.mutation = e.block_number
        · rw [if_pos hmut]
          exact ih _ hrest
        · rw [if_neg hmut]
          exact ih b hrest
      · rw [if_neg hint]
        exact ih b hrest


theorem updateLoop_entries_spec (isSuccessful : Bool)
    (resultInfo : MergeTreePartInfo) (failedPartName : String)
    (failedPartInfo : MergeTreePartInfo) (now : Nat) (msg codeName : String)
    (srcDV resDV : Int) (muts : List MergeTreeMutationEntry)
    (b : List (String × Nat)) :
    (updateMutationEntriesLoop isSuccessful resultInfo failedPartName failedPartInfo
        now msg codeName srcDV resDV muts b).1.length = muts.length
    ∧ ∀ pr ∈ muts.zip (updateMutationEntriesLoop isSuccessful resultInfo failedPartName
        failedPartInfo now msg codeName srcDV resDV muts b).1,
        (¬(srcDV < pr.1.block_number ∧ pr.1.block_number ≤ resDV) → pr.2 = pr.1)
        ∧ ((srcDV < pr.1.block_number ∧ pr.1.block_number ≤ resDV) →
            (isSuccessful = false →
              pr.2 = setEntryFailFields pr.1 failedPartName failedPartInfo now msg codeName)
            ∧ (isSuccessful = true →
              ((pr.1.latest_failed_part ≠ ""
                  ∧ partContains resultInfo pr.1.latest_failed_part_info = true) →
                pr.2 = clearEntryFailFields pr.1)
              ∧ (¬(pr.1.latest_failed_part ≠ ""
                  ∧ partContains resultInfo pr.1.latest_failed_part_info = true) →
                pr.2 = pr.1))) := by
  induction muts generalizing b with
  | nil => exact ⟨rfl, by simp⟩
  | cons e rest ih =>
    rw [updateMutationEntriesLoop]
    by_cases hint : srcDV < e.block_number ∧ e.block_number ≤ resDV
    · rw [if_pos hint]
      cases isSuccessful with
      | false =>
        rw [if_neg (by simp : ¬ (false : Bool) = true)]
        refine ⟨by simp [(ih _).1], ?_⟩
        intro pr hpr
        rw [List.zip_cons_cons] at hpr
        rcases List.mem_cons.mp hpr with hpr | hpr
        · subst hpr
          exact ⟨fun h => absurd hint h,
            fun _ => ⟨fun _ => rfl, fun hs => nomatch hs⟩⟩
        · exact (ih _).2 pr hpr
      | true =>
        rw [if_pos rfl]
        by_cases hcl : e.latest_failed_part ≠ ""
            ∧ partContains resultInfo e.latest_failed_part_info = true
        · rw [if_pos hcl]
          refine ⟨by simp [(ih _).1], ?_⟩
          intro pr hpr
          rw [List.zip_cons_cons] at hpr
          rcases List.mem_cons.mp hpr with hpr | hpr
          · subst hpr
            exact ⟨fun h => absurd hint h,
              fun _ => ⟨fun hs => (nomatch hs),
                fun _ => ⟨fun _ => rfl, fun hncl => absurd hcl hncl⟩⟩⟩
          · exact (ih _).2 pr hpr
        · rw [if_neg hcl]
          refine ⟨by simp [(ih _).1], ?_⟩
          intro pr hpr
          rw [List.zip_cons_cons] at hpr
          rcases List.mem_cons.mp hpr with hpr | hpr
          · subst hpr
            exact ⟨fun _ => rfl,
              fun _ => ⟨fun hs => (nomatch hs),
                fun _ => ⟨fun hcl2 => absurd hcl2 hcl, fun _ => rfl⟩⟩⟩
          · exact (ih _).2 pr hpr
    · rw [if_neg hint]
      refine ⟨by simp [(ih _).1], ?_⟩
      intro pr hpr
      rw [List.zip_cons_cons] at hpr
      rcases List.mem_cons.mp hpr with hpr | hpr
      · subst hpr
        exact ⟨fun _ => rfl, fun h => absurd h hint⟩
      · exact (ih _).2 pr hpr

/-- C4: when the result data version differs from the source's,
`updateMutationEntriesErrors` affects exactly the entries with version in
`(source data-version, result data-version]`: paired with the original map,
entries outside the interval are unchanged; inside it, a failure sets the
latest-fail fields, and a success clears them exactly when a failed part is
recorded and covered by the result part's info; a failure moreover registers
the failing part in the backoff map (the interval contains the entry at the
result's mutation version). -/
theorem updateMutationEntriesErrors_spec
    (mutations : List MergeTreeMutationEntry) (backoff : List (String × Nat))
    (sourceInfo resultInfo : MergeTreePartInfo) (failedPartName : String)
    (failedPartInfo : MergeTreePartInfo) (isSuccessful : Bool)
    (msg codeName : String) (now : Nat)
    (hne : getDataVersion sourceInfo ≠ getDataVersion resultInfo) :
    (updateMutationEntriesErrors mutations backoff sourceInfo resultInfo
        failedPartName failedPartInfo isSuccessful msg codeName now).1.length
      = mutations.length
    ∧ (∀ pr ∈ mutations.zip (updateMutationEntriesErrors mutations backoff sourceInfo
          resultInfo failedPartName failedPartInfo isSuccessful msg codeName now).1,
        (¬(getDataVersion sourceInfo < pr.1.block_number
            ∧ pr.1.block_number ≤ getDataVersion resultInfo) → pr.2 = pr.1)
        ∧ ((getDataVersion sourceInfo < pr.1.block_number
            ∧ pr.1.block_number ≤ getDataVersion resultInfo) →
            (isSuccessful = false →
              pr.2 = setEntryFailFields pr.1 failedPartName failedPartInfo now msg codeName)
            ∧ (isSuccessful = true →
              ((pr.1.latest_failed_part ≠ ""
                  ∧ partContains resultInfo pr.1.latest_failed_part_info = true) →
                pr.2 = clearEntryFailFields pr.1)
              ∧ (¬(pr.1.latest_failed_part ≠ ""
                  ∧ partContains resultInfo pr.1.latest_failed_part_info = true) →
                pr.2 = pr.1))))
    ∧ (isSuccessful = false →
        (∃ e ∈ mutations, (getDataVersion sourceInfo < e.block_number
            ∧ e.block_number ≤ getDataVersion resultInfo)
          ∧ resultInfo.mutation = e.block_number) →
        backoffContains (updateMutationEntriesErrors mutations backoff sourceInfo
          resultInfo failedPartName failedPartInfo isSuccessful msg codeName now).2
          failedPartName = true) := by
  rw [updateMutationEntriesErrors, if_neg hne]
  obtain ⟨hlen, hzip⟩ := updateLoop_entries_spec isSuccessful resultInfo failedPartName
    failedPartInfo now msg codeName (getDataVersion sourceInfo)
    (getDataVersion resultInfo) mutations backoff
  refine ⟨hlen, hzip, ?_⟩
  intro hsf hwit
  subst hsf
  exact updateLoop_registers_failure resultInfo failedPartName failedPartInfo
    now msg codeName _ _ mutations backoff hwit

/-- Witness for C4: a failed mutation to version 5 over a part at data
version 2 registers the failing part in the backoff map. -/
theorem updateMutationEntriesErrors_spec_witness :
    backoffContains
      (updateMutationEntriesErrors
        [{ block_number := 5, tid := 0, commands := [] }] []
        { partition_id := "all", min_block := 1, max_block := 1, level := 0, mutation := 2 }
        { partition_id := "all", min_block := 1, max_block := 1, level := 1, mutation := 5 }
        "all_1_1_0_2"
        { partition_id := "all", min_block := 1, max_block := 1, level := 0, mutation := 2 }
        false "boom" "EX" 42).2 "all_1_1_0_2" = true := by
  have h := updateMutationEntriesErrors_spec
    [{ block_number := 5, tid := 0, commands := [] }] []
    { partition_id := "all", min_block := 1, max_block := 1, level := 0, mutation := 2 }
    { partition_id := "all", min_block := 1, max_block := 1, level := 1, mutation := 5 }
    "all_1_1_0_2"
    { partition_id := "all", min_block := 1, max_block := 1, level := 0, mutation := 2 }
    false "boom" "EX" 42 (by decide)
  exact h.2.2 rfl ⟨{ block_number := 5, tid := 0, commands := [] },
    by simp, by decide, by decide⟩


/-- Result of `killMutation` (`CancellationCode`). -/
inductive CancellationCode where
  | NotFound
  | CancelSent
deriving DecidableEq, Repr

/-- The table state touched by `killMutation`: the mutation map (ascending by
version), the mutation counters, the set of `mutation_<v>.txt` files on disk,
the running transactions of the external transaction log, the merge-list
cancellations issued, and the backoff controller's failure map. -/
structure StorageState where
  mutations : List MergeTreeMutationEntry
  mutation_counters : Int
  mutation_files : List Int
  running_tids : List Nat
  cancelled_merge_versions : List Int
  backoff : List (String × Nat)
deriving DecidableEq, Repr

/-- `StorageMergeTree::killMutation(mutation_id)`.  `mutation_version` is the
result of `MergeTreeMutationEntry::tryParseFileName` (`0` = the id did not
parse), which returns `NotFound` before anything is touched.  Otherwise the
entry is removed from the map (decrementing the counters when it was not
done), the backoff failure map is reset (also when no entry was found), the
origin transaction is rolled back if still running and not prehistoric,
merge-list entries for the version are cancelled, and the mutation file is
deleted.  The counter decrement (`decrementMutationsCounters`, outside this
translation unit) is modelled from the spec as subtracting the entry's
command count. -/
def killMutation (s : StorageState) (mutation_version : Int) :
    CancellationCode × StorageState :=
  if mutation_version = 0 then (CancellationCode.NotFound, s)
  else
    match s.mutations.find? (fun e => decide (e.block_number = mutation_version)) with
    | none => (CancellationCode.NotFound, { s with backoff := resetMutationFailures })
    | some entry =>
      (CancellationCode.CancelSent,
        { s with
          mutations := s.mutations.filter
            (fun e => !decide (e.block_number = mutation_version))
          mutation_counters :=
            if entry.is_done then s.mutation_counters
            else s.mutation_counters - entry.commands.length
          backoff := resetMutationFailures
          running_tids :=
            if entry.tid ≠ 0 ∧ s.running_tids.contains entry.tid
            then s.running_tids.erase entry.tid else s.running_tids
          cancelled_merge_versions := entry.block_number :: s.cancelled_merge_versions
          mutation_files := s.mutation_files.filter
            (fun v => !decide (v = entry.block_number)) })

/-- A visible data part as consulted by the status query: identity, name and
the removal-lock tid hash of its version metadata. -/
structure DataPartLite where
  info : MergeTreePartInfo
  name : String
  removal_tid_lock : Nat
deriving DecidableEq, Repr

/-- The status record produced by `getIncompleteMutationsStatus`. -/
structure MutationStatusLite where
  is_done : Bool
  latest_failed_part : String
  latest_fail_reason : String
  latest_fail_error_code_name : String
  latest_fail_time : Nat
deriving DecidableEq, Repr

/-- The part scan of `getIncompleteMutationsStatusUnlocked`: report on the
first visible part whose data version is below the mutation version — with
the entry's latest-fail fields when a failure is recorded, with a
`PART_IS_LOCKED` serialization failure when a concurrent transaction owns the
part, bare in-progress otherwise; when no such part exists the mutation is
done. -/
def mutationStatusScan (entry : MergeTreeMutationEntry) (txnPresent : Bool)
    (fromAnotherMutation : Bool) (now : Nat) :
    List DataPartLite → MutationStatusLite
  | [] =>
    { is_done := true, latest_failed_part := "", latest_fail_reason := ""
      latest_fail_error_code_name := "", latest_fail_time := 0 }
  | p :: rest =>
    if getDataVersion p.info < entry.block_number then
      if entry.latest_fail_reason ≠ "" then
        { is_done := false, latest_failed_part := entry.latest_failed_part
          latest_fail_reason := entry.latest_fail_reason
          latest_fail_error_code_name := entry.latest_fail_error_code_name
          latest_fail_time := entry.latest_fail_time }
      else if txnPresent ∧ ¬fromAnotherMutation ∧ p.removal_tid_lock ≠ 0
          ∧ p.removal_tid_lock ≠ entry.tid then
        { is_done := false, latest_failed_part := p.name
          latest_fail_reason := "serialization error"
          latest_fail_error_code_name := "PART_IS_LOCKED"
          latest_fail_time := now }
      else
        { is_done := false, latest_failed_part := "", latest_fail_reason := ""
          latest_fail_error_code_name := "", latest_fail_time := 0 }
    else mutationStatusScan entry txnPresent fromAnotherMutation now rest

/-- `StorageMergeTree::getIncompleteMutationsStatusUnlocked(mutation_version)`:
`none` when no entry with that version exists (killed), otherwise the scan
over the visible parts. -/
def getIncompleteMutationsStatusUnlocked (mutations : List MergeTreeMutationEntry)
    (visibleParts : List DataPartLite) (txnPresent : Bool)
    (fromAnotherMutation : Bool) (mutationVersion : Int) (now : Nat) :
    Option MutationStatusLite :=
  match mutations.find? (fun e => decide (e.block_number = mutationVersion)) with
  | none => none
  | some entry =>
    some (mutationStatusScan entry txnPresent fromAnotherMutation now visibleParts)


/-- C5: `killMutation` returns `NotFound` when the id does not parse or no
entry with that version exists, leaving the mutation map unchanged; when the
entry exists it removes it from the map, decrements the counters for an
unfinished entry, deletes the mutation file, rolls back a still-running
origin transaction, cancels merge-list entries for the version, and a
subsequent status query for the version reports not-found. -/
theorem killMutation_spec (s : StorageState) (v : Int)
    (parts : List DataPartLite) (txnPresent fromAnother : Bool) (now : Nat) :
    (v = 0 → killMutation s v = (CancellationCode.NotFound, s))
    ∧ (v ≠ 0 →
        s.mutations.find? (fun e => decide (e.block_number = v)) = none →
        (killMutation s v).1 = CancellationCode.NotFound
        ∧ (killMutation s v).2.mutations = s.mutations)
    ∧ (∀ entry, v ≠ 0 →
        s.mutations.find? (fun e => decide (e.block_number = v)) = some entry →
        (killMutation s v).1 = CancellationCode.CancelSent
        ∧ (killMutation s v).2.mutations
            = s.mutations.filter (fun e => !decide (e.block_number = v))
        ∧ (killMutation s v).2.mutation_counters
            = (if entry.is_done then s.mutation_counters
               else s.mutation_counters - entry.commands.length)
        ∧ (killMutation s v).2.mutation_files
            = s.mutation_files.filter (fun x => !decide (x = entry.block_number))
        ∧ (killMutation s v).2.running_tids
            = (if entry.tid ≠ 0 ∧ s.running_tids.contains entry.tid
               then s.running_tids.erase entry.tid else s.running_tids)
        ∧ entry.block_number ∈ (killMutation s v).2.cancelled_merge_versions
        ∧ getIncompleteMutationsStatusUnlocked (killMutation s v).2.mutations
            parts txnPresent fromAnother v now = none) := by
  refine ⟨?_, ?_, ?_⟩
  · intro hv
    rw [killMutation, if_pos hv]
  · intro hv hfind
    rw [killMutation, if_neg hv, hfind]
    exact ⟨rfl, rfl⟩
  · intro entry hv hfind
    have hnone : (s.mutations.filter (fun e => !decide (e.block_number = v))).find?
        (fun e => decide (e.block_number = v)) = none := by
      rw [List.find?_eq_none]
      intro x hx
      have hm := List.mem_filter.mp hx
      simpa using hm.2
    rw [killMutation, if_neg hv, hfind]
    refine ⟨rfl, rfl, rfl, rfl, rfl, List.mem_cons_self _ _, ?_⟩
    show getIncompleteMutationsStatusUnlocked
      (s.mutations.filter (fun e => !decide (e.block_number = v)))
      parts txnPresent fromAnother v now = none
    rw [getIncompleteMutationsStatusUnlocked, hnone]

/-- The mutation entry used in the kill scenarios: version 7, origin
transaction 3, one UPDATE command, unfinished. -/
def demoKillEntry : MergeTreeMutationEntry :=
  { block_number := 7, tid := 3,
    commands := [{ type := MutationCommandType.UPDATE, astSize := 1 }] }

/-- Table state holding the demo entry, its file, its running transaction and
a non-empty backoff map. -/
def demoKill : StorageState :=
  { mutations := [demoKillEntry], mutation_counters := 1, mutation_files := [7],
    running_tids := [3], cancelled_merge_versions := [], backoff := [("p", 1)] }

/-- Witness for C5: killing version 7 cancels it and the status query then
reports not-found. -/
theorem killMutation_spec_witness :
    (killMutation demoKill 7).1 = CancellationCode.CancelSent
    ∧ getIncompleteMutationsStatusUnlocked (killMutation demoKill 7).2.mutations
        [] true false 7 0 = none := by
  have h := killMutation_spec demoKill 7 [] true false 0
  have h3 := (h.2.2 demoKillEntry (by decide)) (by rfl)
  exact ⟨h3.1, h3.2.2.2.2.2.2⟩

/-- Counterexample to C10: when the mutation id fails to parse,
`killMutation` returns before `resetMutationFailures`, so a non-empty backoff
map survives the failed kill — the parse-failure path does not reset the
backoff state. -/
theorem killMutation_parse_fail_preserves_backoff :
    (killMutation
        { mutations := [], mutation_counters := 0, mutation_files := [],
          running_tids := [], cancelled_merge_versions := [],
          backoff := [("p", 2)] } 0).2.backoff = [("p", 2)]
    ∧ ([(("p" : String), (2 : Nat))] : List (String × Nat)) ≠ resetMutationFailures := by
  exact ⟨rfl, by decide⟩

/-- C10 (amended): whenever the mutation id parses to a version,
`killMutation` resets the per-part backoff state of the whole table — also on
the path that returns `NotFound` because no entry with that version exists;
when the id does not parse, the state is fully preserved. -/
theorem killMutation_backoff_reset (s : StorageState) (v : Int) :
    (v ≠ 0 → (killMutation s v).2.backoff = resetMutationFailures)
    ∧ (v = 0 → (killMutation s v).2 = s) := by
  constructor
  · intro hv
    rw [killMutation, if_neg hv]
    cases hfind : s.mutations.find? (fun e => decide (e.block_number = v)) <;> rfl
  · intro hv
    rw [killMutation, if_pos hv]

/-- Witness for C10 (amended): a kill of an absent version 9 still clears the
non-empty backoff map. -/
theorem killMutation_backoff_reset_witness :
    (killMutation demoKill 9).2.backoff = resetMutationFailures :=
  (killMutation_backoff_reset demoKill 9).1 (by decide)


/-- The done-scan of `clearOldMutations` marks entries finished
(`entry.is_done = true`). -/
def markDone (e : MergeTreeMutationEntry) : MergeTreeMutationEntry :=
  { e with is_done := true }

/-- The candidate range of `clearOldMutations`: with a minimum part data
version, `[begin, upper_bound(min_version))` on the ascending map — the
prefix of entries with version `≤ min_version`; with no parts, the whole
map. -/
def boundedPrefixC (minVersion : Option Int)
    (muts : List MergeTreeMutationEntry) : List MergeTreeMutationEntry :=
  match minVersion with
  | some mv => muts.takeWhile (fun e => decide (e.block_number ≤ mv))
  | none => muts

/-- The done-scan range of `clearOldMutations`: the prefix of the candidate
range with prehistoric origin tids (the scan breaks at the first
non-prehistoric entry, moving `end_it` there). -/
def donePrefixC (minVersion : Option Int)
    (muts : List MergeTreeMutationEntry) : List MergeTreeMutationEntry :=
  (boundedPrefixC minVersion muts).takeWhile (fun e => decide (e.tid = 0))

/-- `StorageMergeTree::clearOldMutations(truncate)` on the mutation map:
returns `(new map, removed entries)`.  Nothing is removed when
`finished_mutations_to_keep` is zero and `truncate` is not set; otherwise the
done-scan marks the prehistoric prefix of the candidate range finished, and
when its length exceeds the kept tail (zero kept under `truncate`) the excess
is erased from the front, oldest first.  The transaction-log CSN assertion in
the erase loop cannot fire (the erased entries are all prehistoric). -/
def clearOldMutations (truncate : Bool) (keepSetting : Nat)
    (minVersion : Option Int) (muts : List MergeTreeMutationEntry) :
    List MergeTreeMutationEntry × List MergeTreeMutationEntry :=
  if truncate = false ∧ keepSetting = 0 then (muts, [])
  else
    if (donePrefixC minVersion muts).length ≤ (if truncate then 0 else keepSetting) then
      ((donePrefixC minVersion muts).map markDone
        ++ muts.drop (donePrefixC minVersion muts).length, [])
    else
      (((donePrefixC minVersion muts).map markDone
          ++ muts.drop (donePrefixC minVersion muts).length).drop
        ((donePrefixC minVersion muts).length - (if truncate then 0 else keepSetting)),
       ((donePrefixC minVersion muts).map markDone
          ++ muts.drop (donePrefixC minVersion muts).length).take
        ((donePrefixC minVersion muts).length - (if truncate then 0 else keepSetting)))

/-- Counterexample to C6 as stated: with a single finished mutation at
version 5 and minimum part data version 5, `clearOldMutations(truncate)`
removes the entry although its version is not strictly below the minimum
part data version (`upper_bound` admits equality). -/
theorem clearOldMutations_counterexample :
    ((clearOldMutations true 0 (some 5)
        [{ block_number := 5, tid := 0, commands := [] }]).2.map
      (fun e => e.block_number)) = [5]
    ∧ ¬((5 : Int) < 5) := by
  exact ⟨rfl, by decide⟩


/-- C6 (amended): with parts present, `clearOldMutations` removes only
finished prehistoric entries whose version is at most (not strictly below)
the minimum part data version, removes them oldest-first (every removed
version is `≤` every kept version), keeps at least
`finished_mutations_to_keep` finished entries whenever anything is removed
(zero kept when `truncate` is set), and removes nothing at all when
`finished_mutations_to_keep` is zero without `truncate`. -/
theorem clearOldMutations_spec (truncate : Bool) (keepSetting : Nat) (mv : Int)
    (muts : List MergeTreeMutationEntry)
    (hs : muts.Pairwise (fun a b => a.block_number ≤ b.block_number)) :
    (∀ e ∈ (clearOldMutations truncate keepSetting (some mv) muts).2,
        e.block_number ≤ mv ∧ e.tid = 0 ∧ e.is_done = true)
    ∧ (∀ e ∈ (clearOldMutations truncate keepSetting (some mv) muts).2,
        ∀ f ∈ (clearOldMutations truncate keepSetting (some mv) muts).1,
          e.block_number ≤ f.block_number)
    ∧ ((clearOldMutations truncate keepSetting (some mv) muts).2 ≠ [] →
        (if truncate then 0 else keepSetting)
          ≤ (clearOldMutations truncate keepSetting (some mv) muts).1.countP
              (fun e => e.is_done))
    ∧ (truncate = false ∧ keepSetting = 0 →
        clearOldMutations truncate keepSetting (some mv) muts = (muts, [])) := by
  by_cases hguard : truncate = false ∧ keepSetting = 0
  · rw [clearOldMutations, if_pos hguard]
    exact ⟨by simp, by simp, by simp, fun _ => rfl⟩
  · rw [clearOldMutations, if_neg hguard]
    by_cases hlen : (donePrefixC (some mv) muts).length
        ≤ (if truncate then 0 else keepSetting)
    · rw [if_pos hlen]
      exact ⟨by simp, by simp, by simp, fun hg => absurd hg hguard⟩
    · rw [if_neg hlen]
      have hDpre : donePrefixC (some mv) muts <+: muts :=
        (List.takeWhile_prefix _).trans (List.takeWhile_prefix _)
      have hDtake : donePrefixC (some mv) muts
          = muts.take (donePrefixC (some mv) muts).length :=
        List.prefix_iff_eq_take.mp hDpre
      have hDmem : ∀ e ∈ donePrefixC (some mv) muts,
          e.block_number ≤ mv ∧ e.tid = 0 := by
        intro e he
        have h2 := List.mem_takeWhile_imp he
        have h1 := List.mem_takeWhile_imp (List.takeWhile_subset _ he)
        exact ⟨by simpa using h1, by simpa using h2⟩
      have hverMark : ∀ d, (markDone d).block_number = d.block_number := fun _ => rfl
      have hMver : ((donePrefixC (some mv) muts).map markDone
            ++ muts.drop (donePrefixC (some mv) muts).length).map
              (fun e => e.block_number)
          = muts.map (fun e => e.block_number) := by
        rw [List.map_append, List.map_map]
        have hcomp : ((fun e : MergeTreeMutationEntry => e.block_number) ∘ markDone)
            = (fun e : MergeTreeMutationEntry => e.block_number) := rfl
        rw [hcomp]
        conv_rhs => rw [← List.take_append_drop (donePrefixC (some mv) muts).length muts,
          List.map_append]
        rw [← hDtake]
      have hMpair : ((donePrefixC (some mv) muts).map markDone
            ++ muts.drop (donePrefixC (some mv) muts).length).Pairwise
          (fun a b => a.block_number ≤ b.block_number) := by
        have h1 : (muts.map (fun e => e.block_number)).Pairwise (· ≤ ·) :=
          List.pairwise_map.mpr hs
        rw [← hMver] at h1
        exact List.pairwise_map.mp h1
      have hklen : (donePrefixC (some mv) muts).length
            - (if truncate then 0 else keepSetting)
          ≤ ((donePrefixC (some mv) muts).map markDone).length := by
        rw [List.length_map]
        omega
      have htake : ((donePrefixC (some mv) muts).map markDone
            ++ muts.drop (donePrefixC (some mv) muts).length).take
          ((donePrefixC (some mv) muts).length - (if truncate then 0 else keepSetting))
          = ((donePrefixC (some mv) muts).map markDone).take
          ((donePrefixC (some mv) muts).length - (if truncate then 0 else keepSetting)) :=
        List.take_append_of_le_length hklen
      have hdrop : ((donePrefixC (some mv) muts).map markDone
            ++ muts.drop (donePrefixC (some mv) muts).length).drop
          ((donePrefixC (some mv) muts).length - (if truncate then 0 else keepSetting))
          = ((donePrefixC (some mv) muts).map markDone).drop
            ((donePrefixC (some mv) muts).length - (if truncate then 0 else keepSetting))
          ++ muts.drop (donePrefixC (some mv) muts).length :=
        List.drop_append_of_le_length hklen
      refine ⟨?_, ?_, ?_, fun hg => absurd hg hguard⟩
      · intro e he
        rw [htake] at he
        obtain ⟨d, hd, hde⟩ := List.mem_map.mp (List.mem_of_mem_take he)
        obtain ⟨hdv, hdt⟩ := hDmem d hd
        refine ⟨?_, ?_, ?_⟩
        · rw [← hde]; exact hdv
        · rw [← hde]; exact hdt
        · rw [← hde]; rfl
      · intro e he f hf
        exact hMpair.rel_of_mem_take_of_mem_drop he hf
      · intro _
        rw [hdrop, List.countP_append]
        have hall : (((donePrefixC (some mv) muts).map markDone).drop
              ((donePrefixC (some mv) muts).length
                - (if truncate then 0 else keepSetting))).countP
              (fun e => e.is_done)
            = (((donePrefixC (some mv) muts).map markDone).drop
              ((donePrefixC (some mv) muts).length
                - (if truncate then 0 else keepSetting))).length := by
          rw [List.countP_eq_length]
          intro a ha
          obtain ⟨d, _, hde⟩ := List.mem_map.mp (List.mem_of_mem_drop ha)
          rw [← hde]
          rfl
        rw [hall, List.length_drop, List.length_map]
        omega

/-- Two prehistoric mutations at versions 3 and 5, used by the cleanup
scenario. -/
def demoClearMuts : List MergeTreeMutationEntry :=
  [{ block_number := 3, tid := 0, commands := [] },
   { block_number := 5, tid := 0, commands := [] }]

/-- Witness for C6 (amended): truncating with minimum part data version 4
removes exactly finished prehistoric entries with version at most 4, all
below every kept version. -/
theorem clearOldMutations_spec_witness :
    (∀ e ∈ (clearOldMutations true 0 (some 4) demoClearMuts).2,
        e.block_number ≤ 4 ∧ e.tid = 0 ∧ e.is_done = true)
    ∧ (∀ e ∈ (clearOldMutations true 0 (some 4) demoClearMuts).2,
        ∀ f ∈ (clearOldMutations true 0 (some 4) demoClearMuts).1,
          e.block_number ≤ f.block_number) := by
  have h := clearOldMutations_spec true 0 4 demoClearMuts (by decide)
  exact ⟨h.1, h.2.1⟩


end MergeTree
